import Mathlib

/-!
Shallow embedding of the vibe-sequencer core (pattern generation, sequence
model, playback scheduling and chaining) from `src/index.js` and the
LLM movement controller from `src/unnamed/part_003`, together with
theorems settling the frozen claims about the natural-language spec.

Randomness model: every call to `Math.random()` is one read from an
abstract stream `r : ℕ → ℚ` (JS doubles in `[0,1)` are rationals), read
at explicitly tracked positions in the exact order the source performs
the calls.  Generators that mix the draws with `Math.sin`/`Math.tanh`
coerce the stream into `ℝ`.
-/

namespace VibeSeq

/-! ## SequenceModel (src/index.js, `Sequencer` callbacks)

A JS array cell is either a stored number or a hole (`undefined`), so the
`values` array is embedded as `List (Option ℤ)`. -/

/-- One sequence record `{values, duration}` as stored by the app. -/
structure Sequence where
  values : List (Option ℤ)
  duration : ℤ
  deriving DecidableEq, Repr

/-- JS array assignment `a[i] = v`: in-range indices are overwritten; an
out-of-range index grows the array, filling the gap with holes. -/
def jsArraySet (a : List (Option ℤ)) (i : ℕ) (v : ℤ) : List (Option ℤ) :=
  if i < a.length then a.set i (some v)
  else a ++ List.replicate (i - a.length) none ++ [some v]

/-- `setVal` (src/index.js:570-577): `newSequence.values[i] = v` with no
validation of either argument. -/
def setVal (s : Sequence) (v : ℤ) (i : ℕ) : Sequence :=
  { s with values := jsArraySet s.values i v }

/-- `setDuration` (src/index.js:580-587): stores the argument unchanged. -/
def setDuration (s : Sequence) (d : ℤ) : Sequence :=
  { s with duration := d }

/-! ## PlaybackScheduler (src/index.js, `Sequencer` interval effect, 590-612) -/

/-- A command dispatched to the device on one tick. -/
inductive Command where
  | linear (position : ℚ) (durationMs : ℤ)
  | vibrate (intensity : ℚ)
  | noop
  deriving DecidableEq, Repr

/-- Cursor advance performed at the start of each tick:
`(playingIndex + 1) % columns`. -/
def nextCursor (cols c : ℕ) : ℕ := (c + 1) % cols

/-- Intensity sent to the device: `sequence.values[next] / 4`
(src/index.js:599,601 — the divisor is the literal `4`). -/
def intensityOf (level : ℤ) : ℚ := (level : ℚ) / 4

/-- Duration argument of `device.linear`:
`Math.floor(sequence.duration * 0.9)` (src/index.js:599). -/
def linearDurationArg (durationMs : ℤ) : ℤ := ⌊(durationMs : ℚ) * 0.9⌋

/-- One playback tick: advance the cursor, then send the command for the
level at the advanced index (linear preferred over vibrate).  Returns the
command together with the new cursor. -/
def tickEmit (supportsLinear supportsVibrate : Bool) (levels : List ℤ)
    (durationMs : ℤ) (cols c : ℕ) : Command × ℕ :=
  let c2 := nextCursor cols c
  let cmd :=
    if supportsLinear then
      Command.linear (intensityOf (levels.getD c2 0)) (linearDurationArg durationMs)
    else if supportsVibrate then
      Command.vibrate (intensityOf (levels.getD c2 0))
    else Command.noop
  (cmd, c2)

/-- Cursor value after `n` ticks starting fresh from `playingIndex = 0`. -/
def cursorAfter (cols : ℕ) : ℕ → ℕ
  | 0 => 0
  | n + 1 => nextCursor cols (cursorAfter cols n)

/-- The indices whose levels are sent on the first `n` ticks. -/
def sentIndices (cols n : ℕ) : List ℕ :=
  (List.range n).map (fun t => cursorAfter cols (t + 1))

/-! ## ChainController (src/index.js: tick auto-advance guard 603-607 and
`App`'s `onAdvance` 812-821) -/

/-- `App`'s `onAdvance` handler for sequencer `i`: advance to `i+1` when it
exists, otherwise clear `playing` (stop).  `none` = stopped. -/
def onAdvance (numSeqs i : ℕ) : Option ℕ :=
  if i + 1 < numSeqs then some (i + 1) else none

/-- One tick of the active sequencer `i` at cursor `c`, including the
auto-advance side effect: `onAdvance` fires only when the advanced cursor
wrapped to 0, `autoAdvance` is set and `i` is not the last sequencer
(`!isLast` guard, src/index.js:604).  Returns (new cursor, new `playing`). -/
def chainTick (autoAdvance : Bool) (numSeqs cols i c : ℕ) : ℕ × Option ℕ :=
  let c2 := nextCursor cols c
  let playing2 :=
    if c2 = 0 ∧ autoAdvance = true ∧ ¬ i = numSeqs - 1 then onAdvance numSeqs i
    else some i
  (c2, playing2)

/-! ## Claims C5, C10, C6, C8, C3, C2 -/

theorem cursorAfter_eq_mod (cols n : ℕ) :
    cursorAfter cols n = n % cols := by
  induction n with
  | zero => simp [cursorAfter, Nat.zero_mod]
  | succ n ih =>
      simp only [cursorAfter, nextCursor, ih]
      exact Nat.mod_add_mod n cols 1

/-- C5: started fresh (cursor 0), the scheduler pre-increments the cursor
before each command, so for `stepCount = 4` the indices whose levels are
sent are `1,2,3,0,1,2,3,0,...`, and each tick's command reads the level at
the advanced index. -/
theorem playback_cursor_preincrement :
    (∀ n : ℕ, cursorAfter 4 n = n % 4) ∧
    sentIndices 4 8 = [1, 2, 3, 0, 1, 2, 3, 0] ∧
    (∀ (sv : Bool) (levels : List ℤ) (d : ℤ) (c : ℕ),
      (tickEmit true sv levels d 4 c).2 = nextCursor 4 c ∧
      (tickEmit true sv levels d 4 c).1 =
        Command.linear (intensityOf (levels.getD (nextCursor 4 c) 0))
          (linearDurationArg d)) := by
  refine ⟨fun n => cursorAfter_eq_mod 4 n, by decide, ?_⟩
  intro sv levels d c
  exact ⟨rfl, rfl⟩

/-- C10: whenever a tick issues a linear-movement command, the duration
argument equals `floor(stepDurationMs * 0.9)`, i.e. `(9*d)/10` for a
step duration of `d` milliseconds. -/
theorem linear_duration_arg_ninety_percent :
    (∀ d : ℕ, linearDurationArg (d : ℤ) = ((9 * d : ℕ) / 10 : ℕ)) ∧
    (∀ (sv : Bool) (levels : List ℤ) (d : ℕ) (cols c : ℕ),
      (tickEmit true sv levels (d : ℤ) cols c).1 =
        Command.linear (intensityOf (levels.getD (nextCursor cols c) 0))
          (((9 * d : ℕ) / 10 : ℕ) : ℤ)) := by
  have key : ∀ d : ℕ, linearDurationArg (d : ℤ) = ((9 * d : ℕ) / 10 : ℕ) := by
    intro d
    have h09 : (((d : ℤ) : ℚ)) * 0.9 = ((9 * d : ℤ) : ℚ) / ((10 : ℕ) : ℚ) := by
      push_cast
      ring
    have hfl := Rat.floor_intCast_div_natCast (9 * d : ℤ) 10
    simp only [linearDurationArg, h09, hfl]
    omega
  refine ⟨key, fun sv levels d cols c => ?_⟩
  rw [← key d]
  rfl

/-- C6 counterexample: the tick divides the level by the literal `4`, not
by `rowCount - 1`; for `rowCount = 3` and the legal level `2` the sent
intensity is `1/2`, not `2/(3-1) = 1`. -/
theorem intensity_not_rowcount_normalized :
    (2 : ℕ) ≤ 3 ∧ (0 : ℤ) ≤ 2 ∧ (2 : ℤ) ≤ (3 : ℤ) - 1 ∧
    intensityOf 2 ≠ (2 : ℚ) / ((3 : ℚ) - 1) := by
  refine ⟨by norm_num, by norm_num, by norm_num, ?_⟩
  norm_num [intensityOf]

/-- C6 (amended): the sent intensity is `level / 4`; since the UI pins
`rowCount` to 5, this equals `level / (rowCount - 1)` for `rowCount = 5`
and lies in `[0, 1]` for every level in `[0, 4]`. -/
theorem intensity_div_four_in_unit (level : ℤ)
    (h0 : 0 ≤ level) (h4 : level ≤ 4) :
    intensityOf level = (level : ℚ) / ((5 : ℚ) - 1) ∧
    0 ≤ intensityOf level ∧ intensityOf level ≤ 1 := by
  refine ⟨by norm_num [intensityOf], ?_, ?_⟩
  · have hq : (0 : ℚ) ≤ (level : ℚ) := by exact_mod_cast h0
    exact div_nonneg hq (by norm_num)
  · have hle : (level : ℚ) ≤ 4 := by exact_mod_cast h4
    rw [intensityOf, div_le_one (by norm_num)]
    exact hle

theorem intensity_div_four_in_unit_witness :
    (0 : ℤ) ≤ 2 ∧ (2 : ℤ) ≤ 4 ∧
    (intensityOf 2 = (2 : ℚ) / ((5 : ℚ) - 1) ∧
     0 ≤ intensityOf 2 ∧ intensityOf 2 ≤ 1) :=
  ⟨by norm_num, by norm_num,
    intensity_div_four_in_unit 2 (by norm_num) (by norm_num)⟩

/-- C8 counterexample: `setDuration 100` stores `100`, it does not clamp
up to `250` (and no error is raised — the function is total). -/
theorem setDuration_no_clamp_low :
    (100 : ℤ) < 250 ∧
    (setDuration ⟨List.replicate 16 (some 0), 250⟩ 100).duration = 100 ∧
    (100 : ℤ) ≠ 250 :=
  ⟨by norm_num, rfl, by norm_num⟩

/-- C8 (amended): `setDuration ms` stores `ms` unchanged for every input,
with no clamping and no error; the `[250, 3000]` range is imposed only by
the slider UI bounds, not by `setDuration`. -/
theorem setDuration_stores_unchanged (s : Sequence) (d : ℤ) :
    (setDuration s d).duration = d ∧ (setDuration s d).values = s.values :=
  ⟨rfl, rfl⟩

/-- C3 counterexample: with a 4-cell sequence, `setVal` at the
out-of-range index 10 changes the state (the array grows to length 11),
and `setVal` of the out-of-range value 99 at index 1 also changes the
state; nothing is rejected. -/
theorem setVal_no_validation :
    (setVal ⟨List.replicate 4 (some 0), 250⟩ 3 10 ≠
      ⟨List.replicate 4 (some 0), 250⟩) ∧
    (setVal ⟨List.replicate 4 (some 0), 250⟩ 3 10).values.length = 11 ∧
    (setVal ⟨List.replicate 4 (some 0), 250⟩ 99 1 ≠
      ⟨List.replicate 4 (some 0), 250⟩) := by
  refine ⟨?_, by decide, ?_⟩ <;> decide

/-- C3 (amended): `setVal` performs no validation and never fails: for
every index and value it writes `values[index] = value` — an in-range
index overwrites exactly that one cell, an out-of-range index grows the
array to length `index + 1`, filling the gap with holes; the duration is
untouched. -/
theorem setVal_writes_unconditionally (s : Sequence) (v : ℤ) (i : ℕ) :
    (setVal s v i).duration = s.duration ∧
    (setVal s v i).values.length = max s.values.length (i + 1) ∧
    (setVal s v i).values[i]? = some (some v) ∧
    (∀ j, j < s.values.length → j ≠ i →
      (setVal s v i).values[j]? = s.values[j]?) ∧
    (∀ j, s.values.length ≤ j → j ≠ i → j ≤ i →
      (setVal s v i).values[j]? = some none) := by
  set a := s.values with ha
  have hvals : (setVal s v i).values = jsArraySet a i v := rfl
  rw [hvals]
  refine ⟨rfl, ?_, ?_, ?_, ?_⟩
  · by_cases h : i < a.length
    · simp [jsArraySet, h]
      omega
    · simp [jsArraySet, h, List.length_append]
      omega
  · by_cases h : i < a.length
    · simp [jsArraySet, h]
    · have hle : a.length ≤ i := Nat.le_of_not_lt h
      simp only [jsArraySet, if_neg h, List.append_assoc]
      rw [List.getElem?_append_right hle]
      rw [List.getElem?_append_right (by simp)]
      simp
  · intro j hj hji
    by_cases h : i < a.length
    · simp only [jsArraySet, if_pos h]
      exact List.getElem?_set_ne (Ne.symm hji)
    · simp only [jsArraySet, if_neg h, List.append_assoc]
      rw [List.getElem?_append_left hj]
  · intro j hj hji hjile
    have h : ¬ i < a.length := by omega
    simp only [jsArraySet, if_neg h, List.append_assoc]
    rw [List.getElem?_append_right hj]
    rw [List.getElem?_append_left (by simp; omega)]
    exact List.getElem?_replicate_of_lt (by omega)

/-- C2 counterexample: with `autoAdvance = true`, 3 sequences of 4 steps,
the tick on which the last sequence (index 2) wraps its cursor to 0
leaves it playing (the `!isLast` guard skips `onAdvance`): playback is
`some 2`, not stopped (`none`). -/
theorem last_sequence_keeps_looping :
    (2 : ℕ) ≤ 3 ∧ nextCursor 4 3 = 0 ∧
    chainTick true 3 4 2 3 = (0, some 2) ∧
    (some 2 : Option ℕ) ≠ none := by
  refine ⟨by norm_num, by decide, by decide, by decide⟩

/-- C2 (amended): with `autoAdvance` enabled, the tick on which the
cursor of active sequence `i` wraps to 0 activates sequence `i+1` when
`i` is not the last index; when `i` is the last index the guard skips
`onAdvance` entirely, so playback neither stops nor wraps: sequence `i`
keeps playing. -/
theorem chainTick_advance_behavior (numSeqs cols i c : ℕ)
    (hn : 2 ≤ numSeqs) (hi : i < numSeqs) (hwrap : nextCursor cols c = 0) :
    (i ≠ numSeqs - 1 → chainTick true numSeqs cols i c = (0, some (i + 1))) ∧
    (i = numSeqs - 1 → chainTick true numSeqs cols i c = (0, some i)) := by
  constructor
  · intro hne
    have hlt : i + 1 < numSeqs := by omega
    simp [chainTick, hwrap, hne, onAdvance, hlt]
  · intro heq
    simp [chainTick, hwrap, heq]

/-! ## LLMMovementController (src/unnamed/part_003)

`parseMovementOutput` only inspects `text.includes(...)` for six fixed
keywords, so the text is embedded as the six membership flags.  A failed
fetch/parse (the `catch` branch) is embedded as `none` input. -/

/-- Keyword occurrences that `parseMovementOutput` tests the LLM text for. -/
structure TextFlags where
  gentle : Bool
  intense : Bool
  slow : Bool
  fast : Bool
  smooth : Bool
  erratic : Bool

/-- The `{intensity, frequency, smoothness, variation}` parameter bundle. -/
structure MovementParams where
  intensity : ℚ
  frequency : ℚ
  smoothness : ℚ
  variation : ℚ

/-- `parseMovementOutput`: defaults adjusted by keyword hits. -/
def parseMovementOutput (t : TextFlags) : MovementParams :=
  let p0 : MovementParams := ⟨0.5, 1.0, 0.8, 0.3⟩
  let p1 := if t.gentle then { p0 with intensity := p0.intensity * 0.5 } else p0
  let p2 := if t.intense then { p1 with intensity := p1.intensity * 1.5 } else p1
  let p3 := if t.slow then { p2 with frequency := p2.frequency * 0.5 } else p2
  let p4 := if t.fast then { p3 with frequency := p3.frequency * 1.5 } else p3
  let p5 := if t.smooth then { p4 with smoothness := 1.0 } else p4
  if t.erratic then { p5 with variation := 0.8 } else p5

/-- `convertToActuatorCommands`: `floor(duration/100)` samples of the
clamped waveform. -/
noncomputable def convertToActuatorCommands (p : MovementParams)
    (duration : ℕ) : List ℝ :=
  (List.range (duration / 100)).map fun (i : ℕ) =>
    let t : ℝ := (i : ℝ) / ((duration / 100 : ℕ) : ℝ)
    let baseIntensity : ℝ := (p.intensity : ℝ)
    let variation := Real.sin (t * Real.pi * 2 * (p.frequency : ℝ)) * (p.variation : ℝ)
    let smoothness := Real.sin (t * Real.pi * 2) * (1 - (p.smoothness : ℝ))
    max 0 (min 1 (baseIntensity + variation + smoothness))

/-- `generateFallbackPattern`: constant 0.5 sequence of `floor(duration/100)`
steps. -/
def generateFallbackPattern (duration : ℕ) : List ℝ :=
  List.replicate (duration / 100) (0.5 : ℝ)

/-- `generateMovementSequence`: the `try` branch converts the parsed text,
the `catch` branch (input `none`) substitutes the fallback pattern. -/
noncomputable def generateMovementSequence (fetched : Option TextFlags)
    (duration : ℕ) : List ℝ :=
  match fetched with
  | some t => convertToActuatorCommands (parseMovementOutput t) duration
  | none => generateFallbackPattern duration

/-- C9: when obtaining the text fails, `generateMovementSequence` returns
(rather than propagates an error) the constant `0.5` sequence whose
length is the same step count `floor(duration/100)` that the normal path
produces. -/
theorem movement_fallback_constant_half (duration : ℕ) :
    generateMovementSequence none duration =
      List.replicate (duration / 100) (0.5 : ℝ) ∧
    (generateMovementSequence none duration).length = duration / 100 ∧
    (∀ t : TextFlags,
      (generateMovementSequence (some t) duration).length = duration / 100) := by
  refine ⟨rfl, by simp [generateMovementSequence, generateFallbackPattern], ?_⟩
  intro t
  simp only [generateMovementSequence, convertToActuatorCommands,
    List.length_map, List.length_range]

theorem chainTick_advance_behavior_witness :
    ((2 : ℕ) ≤ 3 ∧ (0 : ℕ) < 3 ∧ nextCursor 4 3 = 0) ∧
    ((0 ≠ 3 - 1 → chainTick true 3 4 0 3 = (0, some 1)) ∧
     (0 = 3 - 1 → chainTick true 3 4 0 3 = (0, some 0))) :=
  ⟨⟨by norm_num, by norm_num, by decide⟩,
    chainTick_advance_behavior 3 4 0 3 (by norm_num) (by norm_num) (by decide)⟩

/-! ## PatternGenerator strategies (src/index.js)

Each generator reads its `Math.random()` draws from the stream `r` at the
positions the source consumes them. -/

/-- `Math.floor(u * n)` — uniform integer draw. -/
def randFloor (n : ℕ) (u : ℚ) : ℤ := ⌊u * (n : ℚ)⌋

/-- Tail of a walk-style pattern: `k` more entries, the entry at column
`i` computed from the previous entry. -/
def chainAux (step : ℤ → ℕ → ℤ) : ℤ → ℕ → ℕ → List ℤ
  | _, _, 0 => []
  | prev, i, k + 1 =>
      let nxt := step prev i
      nxt :: chainAux step nxt (i + 1) k

/-- A walk-style pattern: a first entry followed by `cols - 1` steps (the
loops `for (let i = 1; i < cols; i++)` of the source). -/
def chainFrom (step : ℤ → ℕ → ℤ) (first : ℤ) (cols : ℕ) : List ℤ :=
  first :: chainAux step first 1 (cols - 1)

theorem chainAux_length (step : ℤ → ℕ → ℤ) :
    ∀ p i k, (chainAux step p i k).length = k := by
  intro p i k
  induction k generalizing p i with
  | zero => rfl
  | succ k ih => simp [chainAux, ih]

theorem chainFrom_length (step : ℤ → ℕ → ℤ) (first : ℤ) (cols : ℕ)
    (h : 1 ≤ cols) : (chainFrom step first cols).length = cols := by
  simp only [chainFrom, List.length_cons, chainAux_length]
  omega

theorem chainAux_forall (step : ℤ → ℕ → ℤ) (P : ℤ → Prop)
    (hstep : ∀ p i, P p → P (step p i)) :
    ∀ p i k, P p → ∀ x ∈ chainAux step p i k, P x := by
  intro p i k
  induction k generalizing p i with
  | zero => intro _ x hx; simp [chainAux] at hx
  | succ k ih =>
      intro hp x hx
      simp only [chainAux, List.mem_cons] at hx
      rcases hx with rfl | hx
      · exact hstep p i hp
      · exact ih (step p i) (i + 1) (hstep p i hp) x hx

theorem chainFrom_forall (step : ℤ → ℕ → ℤ) (P : ℤ → Prop) (first : ℤ)
    (cols : ℕ) (hfirst : P first) (hstep : ∀ p i, P p → P (step p i)) :
    ∀ x ∈ chainFrom step first cols, P x := by
  intro x hx
  simp only [chainFrom, List.mem_cons] at hx
  rcases hx with rfl | hx
  · exact hfirst
  · exact chainAux_forall step P hstep first 1 (cols - 1) hfirst x hx

theorem chainAux_chain (step : ℤ → ℕ → ℤ) (Q : ℤ → ℤ → Prop)
    (hQ : ∀ p i, Q p (step p i)) :
    ∀ p i k, List.Chain Q p (chainAux step p i k) := by
  intro p i k
  induction k generalizing p i with
  | zero => exact List.Chain.nil
  | succ k ih => exact List.Chain.cons (hQ p i) (ih (step p i) (i + 1))

theorem chainFrom_chain' (step : ℤ → ℕ → ℤ) (Q : ℤ → ℤ → Prop)
    (first : ℤ) (cols : ℕ) (hQ : ∀ p i, Q p (step p i)) :
    List.Chain' Q (chainFrom step first cols) :=
  chainAux_chain step Q hQ first 1 (cols - 1)

/-- `generateRandomPattern` (src/index.js:16-20). -/
def generateRandomPattern (rows cols : ℕ) (r : ℕ → ℚ) : List ℤ :=
  (List.range cols).map fun i => randFloor rows (r i)

/-- One brownian step (src/index.js:72-83): the draw at `1 + 2*(i-1)`
picks the magnitude family, the draw at `2 + 2*(i-1)` the sign; clamp. -/
def brownianStep (rows : ℕ) (r : ℕ → ℚ) (prev : ℤ) (i : ℕ) : ℤ :=
  let step : ℤ :=
    if r (1 + 2 * (i - 1)) < 0.7 then (if r (2 + 2 * (i - 1)) < 0.5 then -1 else 1)
    else (if r (2 + 2 * (i - 1)) < 0.5 then -2 else 2)
  max 0 (min ((rows : ℤ) - 1) (prev + step))

/-- `generateBrownianPattern` (src/index.js:72-83). -/
def generateBrownianPattern (rows cols : ℕ) (r : ℕ → ℚ) : List ℤ :=
  chainFrom (brownianStep rows r) (randFloor rows (r 0)) cols

/-- `getWeightedRandomIndex` (src/index.js:135-154) applied to the weights
`[0.1, 0.2, 0.4, 0.2, 0.1]` (total weight 1): the first index whose
cumulative weight exceeds the draw, falling back to the last index. -/
def getWeightedRandomIndex (u : ℚ) : ℕ :=
  if u < 0.1 then 0
  else if u < 0.3 then 1
  else if u < 0.7 then 2
  else if u < 0.9 then 3
  else 4

/-- One life-like step (src/index.js:96-123): weighted choice among
`prev - 2 .. prev + 2`, clamped, then forced one step off a boundary when
the walk would sit on it twice.  (The source calls the clamped value
`nextUnclamped`.) -/
def lifeStep (rows : ℕ) (r : ℕ → ℚ) (prev : ℤ) (i : ℕ) : ℤ :=
  let next := prev + (getWeightedRandomIndex (r i) : ℤ) - 2
  let nextUnclamped := max 0 (min ((rows : ℤ) - 1) next)
  if prev = 0 ∧ nextUnclamped = 0 then 1
  else if prev = (rows : ℤ) - 1 ∧ nextUnclamped = (rows : ℤ) - 1 then (rows : ℤ) - 2
  else nextUnclamped

/-- `generateLifeLikePattern` (src/index.js:91-127). -/
def generateLifeLikePattern (rows cols : ℕ) (r : ℕ → ℚ) : List ℤ :=
  chainFrom (lifeStep rows r) (randFloor rows (r 0)) cols

/-- One cellular step (src/index.js:173-177): JS `%` is truncating
remainder (`Int.tmod`), and the result is clamped. -/
def cellularStep (rows : ℕ) (r : ℕ → ℚ) (prev : ℤ) (i : ℕ) : ℤ :=
  let next := Int.tmod (prev + randFloor 3 (r (i + 1)) - 1) (rows : ℤ)
  max 0 (min ((rows : ℤ) - 1) next)

/-- `generateCellularPattern` (src/index.js:165-180): draw 0 is consumed
by the `seed` default argument (whose derived rule is never used), draw 1
seeds the first cell. -/
def generateCellularPattern (rows cols : ℕ) (r : ℕ → ℚ) : List ℤ :=
  chainFrom (cellularStep rows r) (randFloor rows (r 1)) cols

/-- One organic-motion step (src/index.js:371-380). -/
def organicStep (rows : ℕ) (r : ℕ → ℚ) (prev : ℤ) (i : ℕ) : ℤ :=
  let next := prev + (randFloor 3 (r i) - 1)
  if next < 0 then 0
  else if next > (rows : ℤ) - 1 then (rows : ℤ) - 1
  else next

/-- `generateOrganicMotion` (src/index.js:366-382). -/
def generateOrganicMotion (rows cols : ℕ) (r : ℕ → ℚ) : List ℤ :=
  chainFrom (organicStep rows r) (randFloor rows (r 0)) cols

/-- Raw transition-matrix entry: `Math.random()` draw `i*rows + j`
(src/index.js:320-322). -/
def markovEntry (rows : ℕ) (r : ℕ → ℚ) (i j : ℕ) : ℚ := r (i * rows + j)

/-- Row sum used to normalise row `i` (src/index.js:325-330). -/
def markovRowSum (rows : ℕ) (r : ℕ → ℚ) (i : ℕ) : ℚ :=
  ((List.range rows).map (markovEntry rows r i)).sum

/-- Normalised transition probability (division by a zero row sum is 0 in
`ℚ`; a valid draw stream only hits it when the whole row is 0). -/
def markovProb (rows : ℕ) (r : ℕ → ℚ) (i j : ℕ) : ℚ :=
  markovEntry rows r i j / markovRowSum rows r i

/-- The scan `for (nextState...) { cumulativeProb += ...; if (rand <=
cumulativeProb) ... }` (src/index.js:343-349): first index `j` (scanning
`k` indices from `j0` with accumulator `acc`) whose cumulative
probability reaches `u`, or `none` when the loop falls through. -/
def markovFind (u : ℚ) (f : ℕ → ℚ) : ℕ → ℚ → ℕ → Option ℕ
  | _, _, 0 => none
  | j, acc, k + 1 =>
      let acc2 := acc + f j
      if u ≤ acc2 then some j else markovFind u f (j + 1) acc2 k

/-- One Markov step (src/index.js:337-352): when the scan falls through,
`currentState` is left unchanged. -/
def markovStep (rows : ℕ) (r : ℕ → ℚ) (prev : ℤ) (i : ℕ) : ℤ :=
  let u := r (rows * rows + i)
  match markovFind u (markovProb rows r prev.toNat) 0 0 rows with
  | some j => (j : ℤ)
  | none => prev

/-- `generateMarkovPattern` (src/index.js:317-355): draws `0..rows²-1`
fill the matrix, draw `rows²` seeds the start state, the loop step at
column `i` consumes draw `rows² + i`. -/
def generateMarkovPattern (rows cols : ℕ) (r : ℕ → ℚ) : List ℤ :=
  chainFrom (markovStep rows r) (randFloor rows (r (rows * rows))) cols

/-- One rewriting pass of the L-System rules `'0' → "01"`, `'1' → "10"`
(src/index.js:290-299), with `'1'` as `true`. -/
def lsysExpand (s : List Bool) : List Bool :=
  s.flatMap fun c => if c then [true, false] else [false, true]

/-- The string after three passes from the start symbol `'0'`. -/
def lsysAxiomStr : List Bool := lsysExpand (lsysExpand (lsysExpand [false]))

/-- The conversion loop (src/index.js:302-306): `current` keeps the
truncating-remainder value (possibly negative), only the pushed copy is
clamped. -/
def lsysChain (rows : ℕ) : ℤ → ℕ → ℕ → List ℤ
  | _, _, 0 => []
  | cur, i, k + 1 =>
      let sym := lsysAxiomStr.getD (i % lsysAxiomStr.length) false
      let cur2 := Int.tmod (cur + (if sym then 1 else -1)) (rows : ℤ)
      (max 0 (min ((rows : ℤ) - 1) cur2)) :: lsysChain rows cur2 (i + 1) k

/-- `generateLSystemPattern` (src/index.js:285-309): the `seed` default
argument consumes draw 0. -/
def generateLSystemPattern (rows cols : ℕ) (r : ℕ → ℚ) : List ℤ :=
  lsysChain rows (randFloor rows (r 0)) 0 cols

/-! ## Claim C4: life-like boundary anti-sticking -/

/-- C4: for every `rowCount ≥ 2` and `columnCount ≥ 1` and any draw
stream, the life-like pattern never has two consecutive entries both `0`
nor two consecutive entries both `rowCount - 1`. -/
theorem lifelike_no_boundary_sticking (rows cols : ℕ) (r : ℕ → ℚ)
    (hr : ∀ n, 0 ≤ r n ∧ r n < 1) (h2 : 2 ≤ rows) (h1 : 1 ≤ cols) :
    List.Chain'
      (fun a b => ¬(a = 0 ∧ b = 0) ∧
        ¬(a = (rows : ℤ) - 1 ∧ b = (rows : ℤ) - 1))
      (generateLifeLikePattern rows cols r) := by
  apply chainFrom_chain'
  intro p i
  have hrows : (2 : ℤ) ≤ (rows : ℤ) := by exact_mod_cast h2
  simp only [lifeStep]
  split_ifs with hcase1 hcase2 <;> constructor <;> omega

theorem lifelike_no_boundary_sticking_witness :
    ((∀ n : ℕ, (0 : ℚ) ≤ (fun _ : ℕ => (0 : ℚ)) n ∧
        (fun _ : ℕ => (0 : ℚ)) n < 1) ∧ (2 : ℕ) ≤ 5 ∧ (1 : ℕ) ≤ 3) ∧
    List.Chain'
      (fun a b => ¬(a = 0 ∧ b = 0) ∧
        ¬(a = ((5 : ℕ) : ℤ) - 1 ∧ b = ((5 : ℕ) : ℤ) - 1))
      (generateLifeLikePattern 5 3 (fun _ => 0)) :=
  ⟨⟨fun _ => ⟨le_refl 0, by norm_num⟩, by norm_num, by norm_num⟩,
    lifelike_no_boundary_sticking 5 3 (fun _ => 0)
      (fun _ => ⟨le_refl 0, by norm_num⟩) (by norm_num) (by norm_num)⟩

/-! ## Genetic generator (src/index.js:235-276) -/

/-- The fitness function (src/index.js:242-249): one smoothness reward
`1 - |Δ|/rows` per adjacent pair. -/
def fitness (rows : ℕ) : List ℤ → ℚ
  | a :: b :: t => (1 - ((|b - a| : ℤ) : ℚ) / (rows : ℚ)) + fitness rows (b :: t)
  | _ => 0

/-- Stable sort by non-increasing fitness, the model of
`population.sort((a, b) => fitness(b) - fitness(a))` (src/index.js:254). -/
def sortByFitness (rows : ℕ) (pop : List (List ℤ)) : List (List ℤ) :=
  List.insertionSort (fun A B => fitness rows B ≤ fitness rows A) pop

/-- Per-gene mutation pass (src/index.js:267-269): a draw below 0.1 burns
a second draw for the replacement gene.  Returns the mutated genes and
the next draw position. -/
def mutateGenes (rows : ℕ) (r : ℕ → ℚ) : List ℤ → ℕ → List ℤ × ℕ
  | [], k => ([], k)
  | v :: t, k =>
      if r k < 0.1 then
        let rest := mutateGenes rows r t (k + 2)
        (randFloor rows (r (k + 1)) :: rest.1, rest.2)
      else
        let rest := mutateGenes rows r t (k + 1)
        (v :: rest.1, rest.2)

/-- Breeding one child (src/index.js:257-271): two parent picks from the
top five, uniform crossover (`cols` draws), then mutation. -/
def breedOne (rows cols : ℕ) (r : ℕ → ℚ) (pop : List (List ℤ)) (k : ℕ) :
    List ℤ × ℕ :=
  let parent1 := pop.getD (randFloor 5 (r k)).toNat []
  let parent2 := pop.getD (randFloor 5 (r (k + 1))).toNat []
  let crossover := (List.range cols).map fun j =>
    if r (k + 2 + j) < 0.5 then parent1.getD j 0 else parent2.getD j 0
  mutateGenes rows r crossover (k + 2 + cols)

/-- The loop `for (let i = 5; i < 10; i++)` replacing the bottom half in
place (children `n` slots starting at index `i`). -/
def breedLoop (rows cols : ℕ) (r : ℕ → ℚ) :
    List (List ℤ) → ℕ → ℕ → ℕ → List (List ℤ) × ℕ
  | pop, _, 0, k => (pop, k)
  | pop, i, n + 1, k =>
      let c := breedOne rows cols r pop k
      breedLoop rows cols r (pop.set i c.1) (i + 1) n c.2

/-- One generation (src/index.js:252-273): sort, then breed five children
into slots 5–9. -/
def geneticGeneration (rows cols : ℕ) (r : ℕ → ℚ)
    (st : List (List ℤ) × ℕ) : List (List ℤ) × ℕ :=
  breedLoop rows cols r (sortByFitness rows st.1) 5 5 st.2

/-- The initial random population of ten individuals
(src/index.js:237-239); draw 0 is the unused `seed` default argument. -/
def geneticInit (rows cols : ℕ) (r : ℕ → ℚ) : List (List ℤ) :=
  (List.range 10).map fun p =>
    (List.range cols).map fun g => randFloor rows (r (1 + p * cols + g))

/-- `generateGeneticPattern` (src/index.js:235-276): five generations,
then `population[0]`. -/
def generateGeneticPattern (rows cols : ℕ) (r : ℕ → ℚ) : List ℤ :=
  (((geneticGeneration rows cols r)^[5])
    (geneticInit rows cols r, 1 + 10 * cols)).1.headD []

theorem headD_mem {α : Type} (l : List α) (d : α) (h : l ≠ []) :
    l.headD d ∈ l := by
  cases l with
  | nil => exact absurd rfl h
  | cons a t => simp

theorem breedLoop_length (rows cols : ℕ) (r : ℕ → ℚ) :
    ∀ (pop : List (List ℤ)) (i n k : ℕ),
      (breedLoop rows cols r pop i n k).1.length = pop.length := by
  intro pop i n k
  induction n generalizing pop i k with
  | zero => rfl
  | succ n ih => simp [breedLoop, ih]

theorem breedLoop_headD (rows cols : ℕ) (r : ℕ → ℚ) :
    ∀ (pop : List (List ℤ)) (i n k : ℕ), 1 ≤ i →
      (breedLoop rows cols r pop i n k).1.headD [] = pop.headD [] := by
  intro pop i n k hi
  induction n generalizing pop i k with
  | zero => rfl
  | succ n ih =>
      simp only [breedLoop]
      rw [ih _ (i + 1) _ (by omega)]
      cases pop with
      | nil => simp
      | cons a t =>
          obtain ⟨i0, rfl⟩ : ∃ i0, i = i0 + 1 := ⟨i - 1, by omega⟩
          simp [List.set]

theorem sortByFitness_length (rows : ℕ) (pop : List (List ℤ)) :
    (sortByFitness rows pop).length = pop.length :=
  List.length_insertionSort _ pop

theorem sortByFitness_headD_ge (rows : ℕ) (pop : List (List ℤ))
    (y : List ℤ) (hy : y ∈ pop) :
    fitness rows y ≤ fitness rows ((sortByFitness rows pop).headD []) := by
  have hperm :=
    List.perm_insertionSort (fun A B => fitness rows B ≤ fitness rows A) pop
  have hy2 : y ∈ sortByFitness rows pop := hperm.mem_iff.2 hy
  haveI : IsTotal (List ℤ) (fun A B => fitness rows B ≤ fitness rows A) :=
    ⟨fun a b => le_total _ _⟩
  haveI : IsTrans (List ℤ) (fun A B => fitness rows B ≤ fitness rows A) :=
    ⟨fun _ _ _ hab hbc => le_trans hbc hab⟩
  have hsorted : List.Sorted (fun A B => fitness rows B ≤ fitness rows A)
      (sortByFitness rows pop) :=
    List.sorted_insertionSort _ pop
  rcases hs : sortByFitness rows pop with _ | ⟨h, t⟩
  · rw [hs] at hy2
    simp at hy2
  · rw [hs] at hy2 hsorted
    rcases List.mem_cons.mp hy2 with rfl | hmem
    · simp
    · simpa using List.rel_of_sorted_cons hsorted y hmem

theorem genetic_invariant (rows cols : ℕ) (r : ℕ → ℚ) (n : ℕ) :
    (((geneticGeneration rows cols r)^[n])
        (geneticInit rows cols r, 1 + 10 * cols)).1.length = 10 ∧
    ∃ m ∈ geneticInit rows cols r,
      ∃ y ∈ (((geneticGeneration rows cols r)^[n])
        (geneticInit rows cols r, 1 + 10 * cols)).1,
        fitness rows m ≤ fitness rows y := by
  induction n with
  | zero =>
      have hne : geneticInit rows cols r ≠ [] := by
        simp [geneticInit, List.range_succ]
      refine ⟨by simp [geneticInit], ?_⟩
      exact ⟨(geneticInit rows cols r).headD [], headD_mem _ _ hne,
        (geneticInit rows cols r).headD [], headD_mem _ _ hne, le_refl _⟩
  | succ n ih =>
      obtain ⟨hlen, m, hm, y, hy, hle⟩ := ih
      rw [Function.iterate_succ_apply']
      set pop := (((geneticGeneration rows cols r)^[n])
        (geneticInit rows cols r, 1 + 10 * cols)).1 with hpop
      set k := (((geneticGeneration rows cols r)^[n])
        (geneticInit rows cols r, 1 + 10 * cols)).2 with hk
      have hgen : geneticGeneration rows cols r (pop, k) =
          breedLoop rows cols r (sortByFitness rows pop) 5 5 k := rfl
      have hstep : (geneticGeneration rows cols r
          (((geneticGeneration rows cols r)^[n])
            (geneticInit rows cols r, 1 + 10 * cols))).1 =
          (breedLoop rows cols r (sortByFitness rows pop) 5 5 k).1 := rfl
      rw [hstep]
      constructor
      · rw [breedLoop_length, sortByFitness_length, hlen]
      · have hne : (breedLoop rows cols r (sortByFitness rows pop) 5 5 k).1 ≠ [] := by
          have : (breedLoop rows cols r (sortByFitness rows pop) 5 5 k).1.length = 10 := by
            rw [breedLoop_length, sortByFitness_length, hlen]
          intro hnil
          rw [hnil] at this
          simp at this
        have hhead := breedLoop_headD rows cols r (sortByFitness rows pop) 5 5 k
          (by norm_num)
        refine ⟨m, hm, (breedLoop rows cols r (sortByFitness rows pop) 5 5 k).1.headD [],
          headD_mem _ _ hne, ?_⟩
        rw [hhead]
        exact le_trans hle (sortByFitness_headD_ge rows pop y hy)

/-- C7: for every `rowCount ≥ 2`, `columnCount ≥ 1` and any draw stream,
the individual returned by the genetic generator has fitness at least
that of some member of the initial random population (the top
individual's fitness never decreases across the 5 generations). -/
theorem genetic_best_not_below_initial (rows cols : ℕ) (r : ℕ → ℚ)
    (h2 : 2 ≤ rows) (h1 : 1 ≤ cols) :
    ∃ m ∈ geneticInit rows cols r,
      fitness rows m ≤ fitness rows (generateGeneticPattern rows cols r) := by
  obtain ⟨hlen, m, hm, y, hy, hle⟩ := genetic_invariant rows cols r 4
  refine ⟨m, hm, ?_⟩
  set pop := (((geneticGeneration rows cols r)^[4])
    (geneticInit rows cols r, 1 + 10 * cols)).1 with hpop
  set k := (((geneticGeneration rows cols r)^[4])
    (geneticInit rows cols r, 1 + 10 * cols)).2 with hk
  have hres : generateGeneticPattern rows cols r =
      (breedLoop rows cols r (sortByFitness rows pop) 5 5 k).1.headD [] := by
    rw [generateGeneticPattern, Function.iterate_succ_apply']
    rfl
  rw [hres, breedLoop_headD rows cols r _ 5 5 k (by norm_num)]
  exact le_trans hle (sortByFitness_headD_ge rows pop y hy)

theorem genetic_best_not_below_initial_witness :
    ((2 : ℕ) ≤ 2 ∧ (1 : ℕ) ≤ 1) ∧
    ∃ m ∈ geneticInit 2 1 (fun _ => 0),
      fitness 2 m ≤ fitness 2 (generateGeneticPattern 2 1 (fun _ => 0)) :=
  ⟨⟨le_refl 2, le_refl 1⟩,
    genetic_best_not_below_initial 2 1 (fun _ => 0) (le_refl 2) (le_refl 1)⟩

/-! ## Real-valued generators (sine, perlin, neural, the `auto` branch) -/

/-- `generateSineWavePattern` (src/index.js:23-27); it also serves the
`square`, `triangle` and `sawtooth` menu entries (src/index.js:509-519). -/
noncomputable def generateSineWavePattern (rows cols : ℕ) : List ℤ :=
  (List.range cols).map fun (i : ℕ) =>
    ⌊(Real.sin ((i : ℝ) / (cols : ℝ) * Real.pi * 2) + 1) / 2 * ((rows : ℝ) - 1)⌋

/-- The `auto` branch (src/index.js:548-552):
`Math.floor(Math.sin(i * 0.5) * (rows - 1) + Math.random() * 2)`. -/
noncomputable def generateAutoPattern (rows cols : ℕ) (r : ℕ → ℝ) : List ℤ :=
  (List.range cols).map fun (i : ℕ) =>
    ⌊Real.sin ((i : ℝ) * 0.5) * ((rows : ℝ) - 1) + r i * 2⌋

/-- `noise` (src/index.js:35-37): ignores its argument, consumes one draw. -/
noncomputable def perlinNoiseDraw (r : ℕ → ℝ) (k : ℕ) : ℝ := r k * 2 - 1

/-- `smoothNoise` (src/index.js:38-40): three draws starting at `k`. -/
noncomputable def smoothNoiseDraw (r : ℕ → ℝ) (k : ℕ) : ℝ :=
  (perlinNoiseDraw r k + perlinNoiseDraw r (k + 1) + perlinNoiseDraw r (k + 2)) / 3

/-- `interpolate` (src/index.js:41-43). -/
noncomputable def interpolate (a b t : ℝ) : ℝ := a + (b - a) * (t * t * (3 - 2 * t))

/-- `perlin(x)` (src/index.js:44-58) unrolled over its four octaves
(frequency `0.5,1,2,4`, amplitude `1,0.5,0.25,0.125`, `maxValue =
1.875`).  One column consumes 24 draws starting at `base`; `xf = (x *
frequency) % 1` is `Int.fract` since `x ≥ 0` at every call site. -/
noncomputable def perlinValue (r : ℕ → ℝ) (base : ℕ) (x : ℝ) : ℝ :=
  (interpolate (smoothNoiseDraw r base) (smoothNoiseDraw r (base + 3))
      (Int.fract (x * 0.5)) * 1
    + interpolate (smoothNoiseDraw r (base + 6)) (smoothNoiseDraw r (base + 9))
      (Int.fract (x * 1)) * 0.5
    + interpolate (smoothNoiseDraw r (base + 12)) (smoothNoiseDraw r (base + 15))
      (Int.fract (x * 2)) * 0.25
    + interpolate (smoothNoiseDraw r (base + 18)) (smoothNoiseDraw r (base + 21))
      (Int.fract (x * 4)) * 0.125)
  / (1 + 0.5 + 0.25 + 0.125)

/-- `generatePerlinPattern` (src/index.js:34-64). -/
noncomputable def generatePerlinPattern (rows cols : ℕ) (r : ℕ → ℝ) : List ℤ :=
  (List.range cols).map fun (i : ℕ) =>
    ⌊(perlinValue r (24 * i) ((i : ℝ) / (cols : ℝ) * 10) + 1) / 2 * ((rows : ℝ) - 1)⌋

/-- The sliding 5-wide input window of the neural generator: after `i`
shifts, window slot `m` holds `input[m]` for the initial five draws
(positions `1..5`) or the draw appended after column `m - 5`
(positions `22 + rows + (m - 5)`). -/
noncomputable def neuralInput (rows : ℕ) (r : ℕ → ℝ) (m : ℕ) : ℝ :=
  if m < 5 then r (1 + m) else r (22 + rows + (m - 5))

/-- Hidden activation `tanh(input[j % 4] * hidden[j] + seed)`
(src/index.js:203-205) at column `i`; the hidden weights are draws
`6..21`, the seed is draw 0. -/
noncomputable def neuralHidden (rows : ℕ) (r : ℕ → ℝ) (i j : ℕ) : ℝ :=
  Real.tanh (neuralInput rows r (i + j % 4) * r (6 + j) + r 0)

/-- Output activations (src/index.js:207-209): for each of the `rows`
output weights (draws `22..21+rows`), sum `h * w` over the 16 hidden
activations. -/
noncomputable def neuralOutputs (rows : ℕ) (r : ℕ → ℝ) (i : ℕ) : List ℝ :=
  (List.range rows).map fun j =>
    ((List.range 16).map fun k => neuralHidden rows r i k).foldl
      (fun s h => s + h * r (22 + j)) 0

/-- `outputActivation.indexOf(Math.max(...outputActivation))`
(src/index.js:212). -/
noncomputable def idxOfMax (l : List ℝ) : ℕ :=
  l.indexOf (l.maximum.unbot' 0)

/-- `generateNeuralPattern` (src/index.js:193-221). -/
noncomputable def generateNeuralPattern (rows cols : ℕ) (r : ℕ → ℝ) : List ℤ :=
  (List.range cols).map fun i => (idxOfMax (neuralOutputs rows r i) : ℤ)

/-! ## Per-generator bounds for claim C1 -/

/-- Predicate for valid `Math.random()` streams. -/
def ValidStream (r : ℕ → ℚ) : Prop := ∀ n, 0 ≤ r n ∧ r n < 1

theorem randFloor_range (n : ℕ) (u : ℚ) (h1 : 1 ≤ n) (h0 : 0 ≤ u)
    (hu : u < 1) : 0 ≤ randFloor n u ∧ randFloor n u ≤ (n : ℤ) - 1 := by
  have hn : (0 : ℚ) < (n : ℚ) := by exact_mod_cast h1
  simp only [randFloor]
  constructor
  · exact Int.le_floor.mpr (by push_cast; exact mul_nonneg h0 hn.le)
  · have hlt : u * (n : ℚ) < ((n : ℤ) : ℚ) := by
      push_cast
      calc u * (n : ℚ) < 1 * (n : ℚ) := mul_lt_mul_of_pos_right hu hn
        _ = (n : ℚ) := one_mul _
    have := Int.floor_lt.mpr hlt
    omega

theorem inRange_brownianStep (rows : ℕ) (r : ℕ → ℚ) (h1 : 1 ≤ rows)
    (p : ℤ) (i : ℕ) :
    0 ≤ brownianStep rows r p i ∧ brownianStep rows r p i ≤ (rows : ℤ) - 1 := by
  have hrow : (1 : ℤ) ≤ (rows : ℤ) := by exact_mod_cast h1
  simp only [brownianStep]
  split_ifs <;> constructor <;> omega

theorem inRange_lifeStep (rows : ℕ) (r : ℕ → ℚ) (h2 : 2 ≤ rows)
    (p : ℤ) (i : ℕ) :
    0 ≤ lifeStep rows r p i ∧ lifeStep rows r p i ≤ (rows : ℤ) - 1 := by
  have hrow : (2 : ℤ) ≤ (rows : ℤ) := by exact_mod_cast h2
  simp only [lifeStep]
  split_ifs <;> constructor <;> omega

theorem inRange_cellularStep (rows : ℕ) (r : ℕ → ℚ) (h1 : 1 ≤ rows)
    (p : ℤ) (i : ℕ) :
    0 ≤ cellularStep rows r p i ∧ cellularStep rows r p i ≤ (rows : ℤ) - 1 := by
  have hrow : (1 : ℤ) ≤ (rows : ℤ) := by exact_mod_cast h1
  simp only [cellularStep]
  generalize Int.tmod (p + randFloor 3 (r (i + 1)) - 1) (rows : ℤ) = t
  constructor <;> omega

theorem inRange_organicStep (rows : ℕ) (r : ℕ → ℚ) (h1 : 1 ≤ rows)
    (p : ℤ) (i : ℕ) (hp : 0 ≤ p ∧ p ≤ (rows : ℤ) - 1) :
    0 ≤ organicStep rows r p i ∧ organicStep rows r p i ≤ (rows : ℤ) - 1 := by
  have hrow : (1 : ℤ) ≤ (rows : ℤ) := by exact_mod_cast h1
  simp only [organicStep]
  split_ifs <;> constructor <;> omega

theorem markovFind_lt (u : ℚ) (f : ℕ → ℚ) :
    ∀ (j0 : ℕ) (acc : ℚ) (k j : ℕ), markovFind u f j0 acc k = some j →
      j < j0 + k := by
  intro j0 acc k
  induction k generalizing j0 acc with
  | zero => intro j h; exact absurd h (by simp [markovFind])
  | succ k ih =>
      intro j h
      simp only [markovFind] at h
      split_ifs at h with hc
      · cases h
        omega
      · have := ih (j0 + 1) _ j h
        omega

theorem inRange_markovStep (rows : ℕ) (r : ℕ → ℚ) (p : ℤ) (i : ℕ)
    (hp : 0 ≤ p ∧ p ≤ (rows : ℤ) - 1) :
    0 ≤ markovStep rows r p i ∧ markovStep rows r p i ≤ (rows : ℤ) - 1 := by
  simp only [markovStep]
  split
  · rename_i j hfind
    have := markovFind_lt _ _ 0 0 rows j hfind
    constructor <;> omega
  · exact hp

theorem lsysChain_length (rows : ℕ) :
    ∀ (cur : ℤ) (i k : ℕ), (lsysChain rows cur i k).length = k := by
  intro cur i k
  induction k generalizing cur i with
  | zero => rfl
  | succ k ih => simp [lsysChain, ih]

theorem lsysChain_range (rows : ℕ) (h1 : 1 ≤ rows) :
    ∀ (cur : ℤ) (i k : ℕ), ∀ x ∈ lsysChain rows cur i k,
      0 ≤ x ∧ x ≤ (rows : ℤ) - 1 := by
  have hrow : (1 : ℤ) ≤ (rows : ℤ) := by exact_mod_cast h1
  intro cur i k
  induction k generalizing cur i with
  | zero => intro x hx; simp [lsysChain] at hx
  | succ k ih =>
      intro x hx
      simp only [lsysChain, List.mem_cons] at hx
      rcases hx with rfl | hx
      · constructor <;>
          · generalize Int.tmod (cur + if lsysAxiomStr.getD (i % lsysAxiomStr.length) false then 1 else -1) (rows : ℤ) = t
            omega
      · exact ih _ (i + 1) x hx

theorem generateRandomPattern_spec (rows cols : ℕ) (r : ℕ → ℚ)
    (hr : ValidStream r) (h1 : 1 ≤ rows) :
    (generateRandomPattern rows cols r).length = cols ∧
    ∀ v ∈ generateRandomPattern rows cols r, 0 ≤ v ∧ v ≤ (rows : ℤ) - 1 := by
  refine ⟨by simp [generateRandomPattern], ?_⟩
  intro v hv
  obtain ⟨i, _, rfl⟩ := List.mem_map.mp hv
  exact randFloor_range rows (r i) h1 (hr i).1 (hr i).2

theorem generateBrownianPattern_spec (rows cols : ℕ) (r : ℕ → ℚ)
    (hr : ValidStream r) (h1 : 1 ≤ rows) (hc : 1 ≤ cols) :
    (generateBrownianPattern rows cols r).length = cols ∧
    ∀ v ∈ generateBrownianPattern rows cols r, 0 ≤ v ∧ v ≤ (rows : ℤ) - 1 := by
  refine ⟨chainFrom_length _ _ _ hc, ?_⟩
  exact chainFrom_forall _ _ _ _
    (randFloor_range rows (r 0) h1 (hr 0).1 (hr 0).2)
    (fun p i _ => inRange_brownianStep rows r h1 p i)

theorem generateLifeLikePattern_spec (rows cols : ℕ) (r : ℕ → ℚ)
    (hr : ValidStream r) (h2 : 2 ≤ rows) (hc : 1 ≤ cols) :
    (generateLifeLikePattern rows cols r).length = cols ∧
    ∀ v ∈ generateLifeLikePattern rows cols r, 0 ≤ v ∧ v ≤ (rows : ℤ) - 1 := by
  refine ⟨chainFrom_length _ _ _ hc, ?_⟩
  exact chainFrom_forall _ _ _ _
    (randFloor_range rows (r 0) (by omega) (hr 0).1 (hr 0).2)
    (fun p i _ => inRange_lifeStep rows r h2 p i)

theorem generateCellularPattern_spec (rows cols : ℕ) (r : ℕ → ℚ)
    (hr : ValidStream r) (h1 : 1 ≤ rows) (hc : 1 ≤ cols) :
    (generateCellularPattern rows cols r).length = cols ∧
    ∀ v ∈ generateCellularPattern rows cols r, 0 ≤ v ∧ v ≤ (rows : ℤ) - 1 := by
  refine ⟨chainFrom_length _ _ _ hc, ?_⟩
  exact chainFrom_forall _ _ _ _
    (randFloor_range rows (r 1) h1 (hr 1).1 (hr 1).2)
    (fun p i _ => inRange_cellularStep rows r h1 p i)

theorem generateOrganicMotion_spec (rows cols : ℕ) (r : ℕ → ℚ)
    (hr : ValidStream r) (h1 : 1 ≤ rows) (hc : 1 ≤ cols) :
    (generateOrganicMotion rows cols r).length = cols ∧
    ∀ v ∈ generateOrganicMotion rows cols r, 0 ≤ v ∧ v ≤ (rows : ℤ) - 1 := by
  refine ⟨chainFrom_length _ _ _ hc, ?_⟩
  exact chainFrom_forall _ _ _ _
    (randFloor_range rows (r 0) h1 (hr 0).1 (hr 0).2)
    (fun p i hp => inRange_organicStep rows r h1 p i hp)

theorem generateMarkovPattern_spec (rows cols : ℕ) (r : ℕ → ℚ)
    (hr : ValidStream r) (h1 : 1 ≤ rows) (hc : 1 ≤ cols) :
    (generateMarkovPattern rows cols r).length = cols ∧
    ∀ v ∈ generateMarkovPattern rows cols r, 0 ≤ v ∧ v ≤ (rows : ℤ) - 1 := by
  refine ⟨chainFrom_length _ _ _ hc, ?_⟩
  exact chainFrom_forall _ _ _ _
    (randFloor_range rows (r (rows * rows)) h1 (hr _).1 (hr _).2)
    (fun p i hp => inRange_markovStep rows r p i hp)

theorem generateLSystemPattern_spec (rows cols : ℕ) (r : ℕ → ℚ)
    (hr : ValidStream r) (h1 : 1 ≤ rows) :
    (generateLSystemPattern rows cols r).length = cols ∧
    ∀ v ∈ generateLSystemPattern rows cols r, 0 ≤ v ∧ v ≤ (rows : ℤ) - 1 :=
  ⟨lsysChain_length rows _ 0 cols, lsysChain_range rows h1 _ 0 cols⟩

theorem getD_pred (P : ℤ → Prop) (l : List ℤ) (j : ℕ)
    (hl : ∀ v ∈ l, P v) (h0 : P 0) : P (l.getD j 0) := by
  rcases hj : l[j]? with _ | v
  · simp [List.getD_eq_getElem?_getD, hj, h0]
  · have hv : v ∈ l := List.getElem?_mem hj
    simp only [List.getD_eq_getElem?_getD, hj, Option.getD_some]
    exact hl v hv

theorem mutateGenes_pred (rows : ℕ) (r : ℕ → ℚ) (P : ℤ → Prop)
    (hrand : ∀ m, P (randFloor rows (r m))) :
    ∀ (l : List ℤ) (k : ℕ), (∀ v ∈ l, P v) →
      ∀ v ∈ (mutateGenes rows r l k).1, P v := by
  intro l
  induction l with
  | nil => intro k _ v hv; simp [mutateGenes] at hv
  | cons a t ih =>
      intro k hl v hv
      simp only [mutateGenes] at hv
      split_ifs at hv with hc
      · simp only [List.mem_cons] at hv
        rcases hv with rfl | hv
        · exact hrand (k + 1)
        · exact ih (k + 2) (fun w hw => hl w (List.mem_cons_of_mem _ hw)) v hv
      · simp only [List.mem_cons] at hv
        rcases hv with rfl | hv
        · exact hl _ (List.mem_cons_self _ _)
        · exact ih (k + 1) (fun w hw => hl w (List.mem_cons_of_mem _ hw)) v hv

theorem mutateGenes_length (rows : ℕ) (r : ℕ → ℚ) :
    ∀ (l : List ℤ) (k : ℕ), (mutateGenes rows r l k).1.length = l.length := by
  intro l
  induction l with
  | nil => intro k; rfl
  | cons a t ih =>
      intro k
      simp only [mutateGenes]
      split_ifs <;> simp [ih]

/-- The per-individual invariant used for C1: correct gene count and all
genes in `[0, rows-1]`. -/
def GoodInd (rows cols : ℕ) (ind : List ℤ) : Prop :=
  ind.length = cols ∧ ∀ v ∈ ind, 0 ≤ v ∧ v ≤ (rows : ℤ) - 1

theorem breedOne_good (rows cols : ℕ) (r : ℕ → ℚ) (hr : ValidStream r)
    (h1 : 1 ≤ rows) (pop : List (List ℤ)) (k : ℕ)
    (hpop : ∀ ind ∈ pop, GoodInd rows cols ind) :
    GoodInd rows cols (breedOne rows cols r pop k).1 := by
  have hrow : (1 : ℤ) ≤ (rows : ℤ) := by exact_mod_cast h1
  have hrand : ∀ m, 0 ≤ randFloor rows (r m) ∧
      randFloor rows (r m) ≤ (rows : ℤ) - 1 :=
    fun m => randFloor_range rows (r m) h1 (hr m).1 (hr m).2
  have hparent : ∀ (j0 : ℕ), ∀ v ∈ pop.getD j0 [],
      0 ≤ v ∧ v ≤ (rows : ℤ) - 1 := by
    intro j0 v hv
    rcases hj : pop[j0]? with _ | q
    · simp [List.getD_eq_getElem?_getD, hj] at hv
    · have hq : q ∈ pop := List.getElem?_mem hj
      simp only [List.getD_eq_getElem?_getD, hj, Option.getD_some] at hv
      exact (hpop q hq).2 v hv
  constructor
  · simp only [breedOne, mutateGenes_length, List.length_map, List.length_range]
  · show ∀ v ∈ (breedOne rows cols r pop k).1, _
    simp only [breedOne]
    apply mutateGenes_pred rows r
      (fun v => 0 ≤ v ∧ v ≤ (rows : ℤ) - 1) hrand
    intro v hv
    obtain ⟨j, _, rfl⟩ := List.mem_map.mp hv
    split_ifs
    · exact getD_pred _ _ j (hparent _) (by constructor <;> omega)
    · exact getD_pred _ _ j (hparent _) (by constructor <;> omega)

theorem breedLoop_good (rows cols : ℕ) (r : ℕ → ℚ) (hr : ValidStream r)
    (h1 : 1 ≤ rows) :
    ∀ (pop : List (List ℤ)) (i n k : ℕ),
      (∀ ind ∈ pop, GoodInd rows cols ind) →
      ∀ ind ∈ (breedLoop rows cols r pop i n k).1, GoodInd rows cols ind := by
  intro pop i n k
  induction n generalizing pop i k with
  | zero => intro hpop ind hind; exact hpop ind hind
  | succ n ih =>
      intro hpop ind hind
      simp only [breedLoop] at hind
      refine ih _ (i + 1) _ ?_ ind hind
      intro q hq
      rcases List.mem_or_eq_of_mem_set hq with hmem | rfl
      · exact hpop q hmem
      · exact breedOne_good rows cols r hr h1 pop k hpop

theorem geneticInit_good (rows cols : ℕ) (r : ℕ → ℚ) (hr : ValidStream r)
    (h1 : 1 ≤ rows) :
    ∀ ind ∈ geneticInit rows cols r, GoodInd rows cols ind := by
  intro ind hind
  obtain ⟨p, _, rfl⟩ := List.mem_map.mp hind
  constructor
  · simp
  · intro v hv
    obtain ⟨g, _, rfl⟩ := List.mem_map.mp hv
    exact randFloor_range rows _ h1 (hr _).1 (hr _).2

theorem genetic_iterate_good (rows cols : ℕ) (r : ℕ → ℚ)
    (hr : ValidStream r) (h1 : 1 ≤ rows) (n : ℕ) :
    (((geneticGeneration rows cols r)^[n])
        (geneticInit rows cols r, 1 + 10 * cols)).1.length = 10 ∧
    ∀ ind ∈ (((geneticGeneration rows cols r)^[n])
        (geneticInit rows cols r, 1 + 10 * cols)).1, GoodInd rows cols ind := by
  induction n with
  | zero =>
      exact ⟨by simp [geneticInit], geneticInit_good rows cols r hr h1⟩
  | succ n ih =>
      obtain ⟨hlen, hgood⟩ := ih
      rw [Function.iterate_succ_apply']
      constructor
      · show (breedLoop rows cols r (sortByFitness rows _) 5 5 _).1.length = 10
        rw [breedLoop_length, sortByFitness_length, hlen]
      · show ∀ ind ∈ (breedLoop rows cols r (sortByFitness rows _) 5 5 _).1, _
        apply breedLoop_good rows cols r hr h1
        intro ind hind
        exact hgood ind
          ((List.perm_insertionSort _ _).subset hind)

theorem generateGeneticPattern_spec (rows cols : ℕ) (r : ℕ → ℚ)
    (hr : ValidStream r) (h1 : 1 ≤ rows) :
    (generateGeneticPattern rows cols r).length = cols ∧
    ∀ v ∈ generateGeneticPattern rows cols r, 0 ≤ v ∧ v ≤ (rows : ℤ) - 1 := by
  obtain ⟨hlen, hgood⟩ := genetic_iterate_good rows cols r hr h1 5
  set pop := (((geneticGeneration rows cols r)^[5])
    (geneticInit rows cols r, 1 + 10 * cols)).1 with hpop
  have hne : pop ≠ [] := by
    intro hnil
    rw [hnil] at hlen
    simp at hlen
  have hmem : pop.headD [] ∈ pop := headD_mem _ _ hne
  have := hgood _ hmem
  exact ⟨this.1, this.2⟩

/-! ## Bounds for the real-valued generators -/

theorem floor_scale_range (rows : ℕ) (x : ℝ) (h1 : 1 ≤ rows)
    (hx0 : 0 ≤ x) (hx1 : x ≤ 1) :
    0 ≤ ⌊x * ((rows : ℝ) - 1)⌋ ∧ ⌊x * ((rows : ℝ) - 1)⌋ ≤ (rows : ℤ) - 1 := by
  have hrow : (0 : ℝ) ≤ (rows : ℝ) - 1 := by
    have : (1 : ℝ) ≤ (rows : ℝ) := by exact_mod_cast h1
    linarith
  constructor
  · exact Int.le_floor.mpr (by push_cast; exact mul_nonneg hx0 hrow)
  · have hle : x * ((rows : ℝ) - 1) ≤ (((rows : ℤ) - 1 : ℤ) : ℝ) := by
      push_cast
      nlinarith
    calc ⌊x * ((rows : ℝ) - 1)⌋ ≤ ⌊(((rows : ℤ) - 1 : ℤ) : ℝ)⌋ :=
          Int.floor_le_floor hle
      _ = (rows : ℤ) - 1 := Int.floor_intCast _

theorem generateSineWavePattern_spec (rows cols : ℕ) (h1 : 1 ≤ rows) :
    (generateSineWavePattern rows cols).length = cols ∧
    ∀ v ∈ generateSineWavePattern rows cols, 0 ≤ v ∧ v ≤ (rows : ℤ) - 1 := by
  refine ⟨by simp [generateSineWavePattern], ?_⟩
  intro v hv
  obtain ⟨i, _, rfl⟩ := List.mem_map.mp hv
  have hs1 := Real.neg_one_le_sin ((i : ℝ) / (cols : ℝ) * Real.pi * 2)
  have hs2 := Real.sin_le_one ((i : ℝ) / (cols : ℝ) * Real.pi * 2)
  exact floor_scale_range rows _ h1 (by linarith) (by linarith)

theorem perlinNoiseDraw_bounds (r : ℕ → ℝ) (k : ℕ)
    (hr : ∀ n, 0 ≤ r n ∧ r n < 1) :
    -1 ≤ perlinNoiseDraw r k ∧ perlinNoiseDraw r k < 1 := by
  have := hr k
  simp only [perlinNoiseDraw]
  constructor <;> linarith [this.1, this.2]

theorem smoothNoiseDraw_bounds (r : ℕ → ℝ) (k : ℕ)
    (hr : ∀ n, 0 ≤ r n ∧ r n < 1) :
    -1 ≤ smoothNoiseDraw r k ∧ smoothNoiseDraw r k < 1 := by
  have h0 := perlinNoiseDraw_bounds r k hr
  have h1 := perlinNoiseDraw_bounds r (k + 1) hr
  have h2 := perlinNoiseDraw_bounds r (k + 2) hr
  simp only [smoothNoiseDraw]
  constructor <;> linarith [h0.1, h0.2, h1.1, h1.2, h2.1, h2.2]

theorem interpolate_weight_bounds (t : ℝ) (ht0 : 0 ≤ t) (ht1 : t ≤ 1) :
    0 ≤ t * t * (3 - 2 * t) ∧ t * t * (3 - 2 * t) ≤ 1 := by
  constructor
  · have : (0 : ℝ) ≤ 3 - 2 * t := by linarith
    positivity
  · nlinarith [sq_nonneg (1 - t), mul_nonneg (mul_nonneg ht0 ht0) ht0]

theorem interpolate_bounds (a b t : ℝ) (ha : -1 ≤ a ∧ a < 1)
    (hb : -1 ≤ b ∧ b < 1) (ht0 : 0 ≤ t) (ht1 : t < 1) :
    -1 ≤ interpolate a b t ∧ interpolate a b t < 1 := by
  obtain ⟨hw0, hw1⟩ := interpolate_weight_bounds t ht0 ht1.le
  set w := t * t * (3 - 2 * t) with hw
  simp only [interpolate, ← hw]
  constructor
  · nlinarith [mul_nonneg (sub_nonneg.mpr hw1) (by linarith [ha.1] : (0:ℝ) ≤ a + 1),
      mul_nonneg hw0 (by linarith [hb.1] : (0:ℝ) ≤ b + 1)]
  · rcases eq_or_lt_of_le hw1 with heq | hlt
    · have : a + (b - a) * w = b := by rw [heq]; ring
      rw [this]
      exact hb.2
    · have t1pos : 0 < (1 - w) * (1 - a) :=
        mul_pos (by linarith) (by linarith [ha.2])
      have t2 : 0 ≤ w * (1 - b) := mul_nonneg hw0 (by linarith [hb.2])
      nlinarith

theorem perlinValue_bounds (r : ℕ → ℝ) (base : ℕ) (x : ℝ)
    (hr : ∀ n, 0 ≤ r n ∧ r n < 1) :
    -1 ≤ perlinValue r base x ∧ perlinValue r base x < 1 := by
  have hfr : ∀ y : ℝ, 0 ≤ Int.fract y ∧ Int.fract y < 1 :=
    fun y => ⟨Int.fract_nonneg y, Int.fract_lt_one y⟩
  have i0 := interpolate_bounds (smoothNoiseDraw r base)
    (smoothNoiseDraw r (base + 3)) (Int.fract (x * 0.5))
    (smoothNoiseDraw_bounds r base hr) (smoothNoiseDraw_bounds r (base + 3) hr)
    (hfr _).1 (hfr _).2
  have i1 := interpolate_bounds (smoothNoiseDraw r (base + 6))
    (smoothNoiseDraw r (base + 9)) (Int.fract (x * 1))
    (smoothNoiseDraw_bounds r (base + 6) hr) (smoothNoiseDraw_bounds r (base + 9) hr)
    (hfr _).1 (hfr _).2
  have i2 := interpolate_bounds (smoothNoiseDraw r (base + 12))
    (smoothNoiseDraw r (base + 15)) (Int.fract (x * 2))
    (smoothNoiseDraw_bounds r (base + 12) hr) (smoothNoiseDraw_bounds r (base + 15) hr)
    (hfr _).1 (hfr _).2
  have i3 := interpolate_bounds (smoothNoiseDraw r (base + 18))
    (smoothNoiseDraw r (base + 21)) (Int.fract (x * 4))
    (smoothNoiseDraw_bounds r (base + 18) hr) (smoothNoiseDraw_bounds r (base + 21) hr)
    (hfr _).1 (hfr _).2
  simp only [perlinValue]
  constructor
  · rw [le_div_iff₀ (by norm_num)]
    linarith [i0.1, i1.1, i2.1, i3.1]
  · rw [div_lt_one (by norm_num)]
    linarith [i0.2, i1.2, i2.2, i3.2]

theorem generatePerlinPattern_spec (rows cols : ℕ) (r : ℕ → ℝ)
    (hr : ∀ n, 0 ≤ r n ∧ r n < 1) (h1 : 1 ≤ rows) :
    (generatePerlinPattern rows cols r).length = cols ∧
    ∀ v ∈ generatePerlinPattern rows cols r, 0 ≤ v ∧ v ≤ (rows : ℤ) - 1 := by
  refine ⟨by simp [generatePerlinPattern], ?_⟩
  intro v hv
  obtain ⟨i, _, rfl⟩ := List.mem_map.mp hv
  obtain ⟨hp0, hp1⟩ := perlinValue_bounds r (24 * i) ((i : ℝ) / (cols : ℝ) * 10) hr
  exact floor_scale_range rows _ h1 (by linarith) (by linarith)

theorem idxOfMax_lt (l : List ℝ) (h : l ≠ []) : idxOfMax l < l.length := by
  rcases hmax : l.maximum with _ | m
  · exact absurd (List.maximum_eq_none.mp hmax) h
  · have hm : m ∈ l := List.maximum_mem hmax
    simp only [idxOfMax, hmax]
    exact List.indexOf_lt_length.mpr hm

theorem generateNeuralPattern_spec (rows cols : ℕ) (r : ℕ → ℝ)
    (h1 : 1 ≤ rows) :
    (generateNeuralPattern rows cols r).length = cols ∧
    ∀ v ∈ generateNeuralPattern rows cols r, 0 ≤ v ∧ v ≤ (rows : ℤ) - 1 := by
  refine ⟨by simp [generateNeuralPattern], ?_⟩
  intro v hv
  obtain ⟨i, _, rfl⟩ := List.mem_map.mp hv
  have hne : neuralOutputs rows r i ≠ [] := by
    simp only [neuralOutputs]
    intro hnil
    have := congrArg List.length hnil
    simp at this
    omega
  have hlt : idxOfMax (neuralOutputs rows r i) < rows := by
    have := idxOfMax_lt (neuralOutputs rows r i) hne
    simpa [neuralOutputs] using this
  constructor
  · exact_mod_cast Nat.zero_le _
  · have : (idxOfMax (neuralOutputs rows r i) : ℤ) < (rows : ℤ) := by
      exact_mod_cast hlt
    omega

/-- C1 auto-branch length (the `auto` values can leave the valid range,
see the counterexample). -/
theorem generateAutoPattern_length (rows cols : ℕ) (r : ℕ → ℝ) :
    (generateAutoPattern rows cols r).length = cols := by
  simp [generateAutoPattern]

/-! ## The mode dispatcher and claim C1 -/

/-- The generation modes of the `Sequencer` mode switch
(src/index.js:503-561; `manual` is the pass-through default branch and
not a generator). -/
inductive Mode where
  | random
  | sine
  | square
  | triangle
  | sawtooth
  | cellular
  | neural
  | lsystem
  | genetic
  | markov
  | perlin
  | brownian
  | lifelike
  | organic
  | auto
  deriving DecidableEq, Repr

/-- The mode dispatch of the `Sequencer` generation effect
(src/index.js:503-561): `square`, `triangle` and `sawtooth` all call the
sine generator, exactly as the source does. -/
noncomputable def generate (m : Mode) (rows cols : ℕ) (r : ℕ → ℚ) : List ℤ :=
  match m with
  | Mode.random => generateRandomPattern rows cols r
  | Mode.sine => generateSineWavePattern rows cols
  | Mode.square => generateSineWavePattern rows cols
  | Mode.triangle => generateSineWavePattern rows cols
  | Mode.sawtooth => generateSineWavePattern rows cols
  | Mode.cellular => generateCellularPattern rows cols r
  | Mode.neural => generateNeuralPattern rows cols (fun n => ((r n : ℚ) : ℝ))
  | Mode.lsystem => generateLSystemPattern rows cols r
  | Mode.genetic => generateGeneticPattern rows cols r
  | Mode.markov => generateMarkovPattern rows cols r
  | Mode.perlin => generatePerlinPattern rows cols (fun n => ((r n : ℚ) : ℝ))
  | Mode.brownian => generateBrownianPattern rows cols r
  | Mode.lifelike => generateLifeLikePattern rows cols r
  | Mode.organic => generateOrganicMotion rows cols r
  | Mode.auto => generateAutoPattern rows cols (fun n => ((r n : ℚ) : ℝ))

theorem sin_five_point_five_neg : Real.sin ((11 : ℝ) * 0.5) < 0 := by
  have h115 : (11 : ℝ) * 0.5 = 5.5 := by norm_num
  have hgt : (3.141592 : ℝ) < Real.pi := Real.pi_gt_d6
  have hlt : Real.pi < 3.15 := Real.pi_lt_d2
  have h0 : (0 : ℝ) < 5.5 - Real.pi := by linarith
  have h1 : 5.5 - Real.pi < Real.pi := by linarith
  have hpos : 0 < Real.sin (5.5 - Real.pi) :=
    Real.sin_pos_of_pos_of_lt_pi h0 h1
  have hadd : Real.sin (5.5 - Real.pi + Real.pi) = -Real.sin (5.5 - Real.pi) :=
    Real.sin_add_pi _
  have h55 : (5.5 : ℝ) - Real.pi + Real.pi = 5.5 := by ring
  rw [h115, ← h55, hadd]
  linarith

/-- C1 counterexample: the `auto` mode with `rowCount = 5`,
`columnCount = 12` and the all-zero draw stream produces
`⌊sin(5.5) * 4⌋ < 0` at column 11 — an entry outside `[0, rowCount-1]`,
refuting the claim for the `auto` generation mode. -/
theorem auto_mode_breaks_range :
    ((2 : ℕ) ≤ 5 ∧ (1 : ℕ) ≤ 12 ∧ ValidStream (fun _ => 0)) ∧
    ¬ (∀ v ∈ generate Mode.auto 5 12 (fun _ => 0),
        0 ≤ v ∧ v ≤ ((5 : ℕ) : ℤ) - 1) := by
  refine ⟨⟨by norm_num, by norm_num, fun n => ⟨le_refl 0, by norm_num⟩⟩, ?_⟩
  intro hall
  have hmem : ⌊Real.sin ((11 : ℕ) * (0.5 : ℝ)) * (((5 : ℕ) : ℝ) - 1)
      + (((0 : ℚ) : ℝ)) * 2⌋ ∈ generate Mode.auto 5 12 (fun _ => 0) := by
    show _ ∈ generateAutoPattern 5 12 _
    simp only [generateAutoPattern]
    exact List.mem_map.mpr ⟨11, by simp, rfl⟩
  have hneg : Real.sin ((11 : ℕ) * (0.5 : ℝ)) * (((5 : ℕ) : ℝ) - 1)
      + (((0 : ℚ) : ℝ)) * 2 < 0 := by
    have := sin_five_point_five_neg
    push_cast
    nlinarith
  have hfloor : ¬ (0 : ℤ) ≤ ⌊Real.sin ((11 : ℕ) * (0.5 : ℝ)) * (((5 : ℕ) : ℝ) - 1)
      + (((0 : ℚ) : ℝ)) * 2⌋ := by
    rw [Int.floor_nonneg]
    exact not_le.mpr hneg
  exact hfloor (hall _ hmem).1

/-- C1 (amended): for every generation mode, every `rowCount ≥ 2`,
`columnCount ≥ 1` and valid draw stream, the generated sequence has
length `columnCount`; for every mode except `auto` every entry is an
integer in `[0, rowCount-1]` (the `auto` mode can produce out-of-range
entries). -/
theorem generate_length_and_range (m : Mode) (rows cols : ℕ) (r : ℕ → ℚ)
    (hr : ValidStream r) (h2 : 2 ≤ rows) (h1 : 1 ≤ cols) :
    (generate m rows cols r).length = cols ∧
    (m ≠ Mode.auto → ∀ v ∈ generate m rows cols r,
      0 ≤ v ∧ v ≤ (rows : ℤ) - 1) := by
  have hrow1 : 1 ≤ rows := by omega
  have hrreal : ∀ n, 0 ≤ ((r n : ℚ) : ℝ) ∧ ((r n : ℚ) : ℝ) < 1 := by
    intro n
    constructor
    · exact_mod_cast (hr n).1
    · exact_mod_cast (hr n).2
  cases m with
  | random =>
      obtain ⟨hl, hv⟩ := generateRandomPattern_spec rows cols r hr hrow1
      exact ⟨hl, fun _ => hv⟩
  | sine =>
      obtain ⟨hl, hv⟩ := generateSineWavePattern_spec rows cols hrow1
      exact ⟨hl, fun _ => hv⟩
  | square =>
      obtain ⟨hl, hv⟩ := generateSineWavePattern_spec rows cols hrow1
      exact ⟨hl, fun _ => hv⟩
  | triangle =>
      obtain ⟨hl, hv⟩ := generateSineWavePattern_spec rows cols hrow1
      exact ⟨hl, fun _ => hv⟩
  | sawtooth =>
      obtain ⟨hl, hv⟩ := generateSineWavePattern_spec rows cols hrow1
      exact ⟨hl, fun _ => hv⟩
  | cellular =>
      obtain ⟨hl, hv⟩ := generateCellularPattern_spec rows cols r hr hrow1 h1
      exact ⟨hl, fun _ => hv⟩
  | neural =>
      obtain ⟨hl, hv⟩ := generateNeuralPattern_spec rows cols _ hrow1
      exact ⟨hl, fun _ => hv⟩
  | lsystem =>
      obtain ⟨hl, hv⟩ := generateLSystemPattern_spec rows cols r hr hrow1
      exact ⟨hl, fun _ => hv⟩
  | genetic =>
      obtain ⟨hl, hv⟩ := generateGeneticPattern_spec rows cols r hr hrow1
      exact ⟨hl, fun _ => hv⟩
  | markov =>
      obtain ⟨hl, hv⟩ := generateMarkovPattern_spec rows cols r hr hrow1 h1
      exact ⟨hl, fun _ => hv⟩
  | perlin =>
      obtain ⟨hl, hv⟩ := generatePerlinPattern_spec rows cols _ hrreal hrow1
      exact ⟨hl, fun _ => hv⟩
  | brownian =>
      obtain ⟨hl, hv⟩ := generateBrownianPattern_spec rows cols r hr hrow1 h1
      exact ⟨hl, fun _ => hv⟩
  | lifelike =>
      obtain ⟨hl, hv⟩ := generateLifeLikePattern_spec rows cols r hr h2 h1
      exact ⟨hl, fun _ => hv⟩
  | organic =>
      obtain ⟨hl, hv⟩ := generateOrganicMotion_spec rows cols r hr hrow1 h1
      exact ⟨hl, fun _ => hv⟩
  | auto =>
      exact ⟨generateAutoPattern_length rows cols _, fun hne => absurd rfl hne⟩

theorem generate_length_and_range_witness :
    (ValidStream (fun _ => 0) ∧ (2 : ℕ) ≤ 2 ∧ (1 : ℕ) ≤ 1) ∧
    ((generate Mode.markov 2 1 (fun _ => 0)).length = 1 ∧
     (Mode.markov ≠ Mode.auto → ∀ v ∈ generate Mode.markov 2 1 (fun _ => 0),
        0 ≤ v ∧ v ≤ ((2 : ℕ) : ℤ) - 1)) :=
  ⟨⟨fun n => ⟨le_refl 0, by norm_num⟩, le_refl 2, le_refl 1⟩,
    generate_length_and_range Mode.markov 2 1 (fun _ => 0)
      (fun n => ⟨le_refl 0, by norm_num⟩) (le_refl 2) (le_refl 1)⟩

end VibeSeq
